import Mathlib

/-!
Shallow embedding of the core of `kk7.ipynb`: the backtrader strategy
`MLStrategy` (bar-by-bar forecast-driven executor) and the normalization
benchmark inside `EnhancedDataPipeline` (`_evaluate_normalization` and
`normalize_data`).  Prices and all intermediate numerics are modelled as
rationals; the irrational pointwise transforms used by the source
(`np.sqrt` of a variance inside `StandardScaler`, `np.log`, the fitted
Box-Cox transform) are abstracted into a `NumOps` record of rational
functions, since none of the verified properties depend on their values.
Fallible library calls are modelled with `Except`.
-/

set_option maxRecDepth 4000

deriving instance DecidableEq for Except

/-- Python's `int(q)` on a real value: truncation toward zero. -/
def truncQ (q : ℚ) : ℤ := q.num.tdiv q.den

/-- `MLStrategy.next`, lines 60-62:
`risk_amount = value * (risk_percent / 100); size = int(risk_amount / price)`. -/
def posSize (value riskPercent price : ℚ) : ℤ :=
  truncQ (value * (riskPercent / 100) / price)

/-- The order issued on one bar: no order, a buy of a given size, or a
full close of the open position. -/
inductive TradeAction where
  | hold : TradeAction
  | buy (size : ℤ) : TradeAction
  | close : TradeAction
deriving DecidableEq

/-- Mutable strategy/broker state accumulated across `next` calls:
the closes seen so far (`self.data`), the forecast history
(`self.predicted_prices`), the broker position size and cash. -/
structure ExecState where
  closes : List ℚ
  preds : List ℚ
  position : ℤ
  cash : ℚ
deriving DecidableEq

/-- `self.data.close.get(size=lookback)`: the last `lookback` closes,
ending at the current bar. -/
def window (lookback : Nat) (closes : List ℚ) : List ℚ :=
  closes.drop (closes.length - lookback)

/-- `MLStrategy.next`, lines 42-64.  One bar: record the close; wait
while fewer than `lookback` bars were seen; otherwise predict on the
rolling window and append to the forecast history; with two or more
predictions recorded, compare the current prediction with the previous
one (`predicted_prices[-2]`) and issue the order.  Broker effects of an
order are applied at the current close (`broker.getvalue()` is
`cash + position * price`). -/
def next (model : List ℚ → ℚ) (lookback : Nat) (riskPercent : ℚ)
    (s : ExecState) (close : ℚ) : ExecState × TradeAction :=
  let closes := s.closes ++ [close]
  if closes.length < lookback then
    ({ s with closes := closes }, TradeAction.hold)
  else
    let prediction := model (window lookback closes)
    let preds := s.preds ++ [prediction]
    if preds.length < 2 then
      ({ s with closes := closes, preds := preds }, TradeAction.hold)
    else
      let prevPred := preds.getD (preds.length - 2) 0
      if prevPred < prediction ∧ s.position = 0 then
        let value := s.cash + s.position * close
        let sz := posSize value riskPercent close
        ({ closes := closes, preds := preds,
           position := s.position + sz, cash := s.cash - sz * close },
         TradeAction.buy sz)
      else if prediction < prevPred ∧ s.position ≠ 0 then
        ({ closes := closes, preds := preds,
           position := 0, cash := s.cash + s.position * close },
         TradeAction.close)
      else
        ({ s with closes := closes, preds := preds }, TradeAction.hold)

/-- Fresh strategy state at the start of a backtest run. -/
def initState (cash : ℚ) : ExecState :=
  { closes := [], preds := [], position := 0, cash := cash }

/-- Feed a whole list of bars through `next`, as `cerebro.run()` does. -/
def runBars (model : List ℚ → ℚ) (lookback : Nat) (riskPercent : ℚ)
    (cash : ℚ) (bars : List ℚ) : ExecState :=
  bars.foldl (fun s c => (next model lookback riskPercent s c).1) (initState cash)

/-- The four candidate transforms of `normalize_data`, line 228. -/
inductive Method where
  | zscore : Method
  | minmax : Method
  | boxcox : Method
  | log : Method
deriving DecidableEq

/-- The constant `1e-6` added before Box-Cox and Log, lines 213-215. -/
def eps : ℚ := 1 / 1000000

/-- The irrational pointwise functions of the source, abstracted:
`sqrt` of a variance (inside `StandardScaler`), `np.log`, and the
Box-Cox transform at the fitted lambda.  Every verified property holds
for all implementations. -/
structure NumOps where
  sqrt : ℚ → ℚ
  log : ℚ → ℚ
  boxcoxT : ℚ → ℚ

/-- Arithmetic mean (`np.mean`); `0` on the empty list. -/
def meanQ (xs : List ℚ) : ℚ := xs.sum / xs.length

/-- Population variance (`np.var`, ddof 0), as used by `StandardScaler`. -/
def varQ (xs : List ℚ) : ℚ :=
  ((xs.map fun x => (x - meanQ xs) ^ 2).sum) / xs.length

/-- `True` when every element equals the head (scipy's
`np.all(x == x[0])` constant-data check); `True` on the empty list. -/
def isConstant (xs : List ℚ) : Bool :=
  match xs with
  | [] => true
  | x :: rest => rest.all fun z => z = x

/-- `StandardScaler().fit_transform(X)`, line 217: center by the mean and
divide by the standard deviation; a zero variance makes the scale fall
back to `1` (sklearn `_handle_zeros_in_scale`), so the output is returned,
not an error.  An empty input raises (zero samples). -/
def zscoreN (ops : NumOps) (xs : List ℚ) : Except String (List ℚ) :=
  if xs.isEmpty then Except.error "Found array with 0 sample(s)"
  else
    let m := meanQ xs
    let v := varQ xs
    let s := if v = 0 then 1 else ops.sqrt v
    Except.ok (xs.map fun x => (x - m) / s)

/-- `MinMaxScaler().fit_transform(X)`, line 219: rescale by the data
range; a zero range falls back to scale `1`.  Empty input raises. -/
def minmaxN (xs : List ℚ) : Except String (List ℚ) :=
  match xs with
  | [] => Except.error "Found array with 0 sample(s)"
  | x :: rest =>
    let lo := rest.foldl min x
    let hi := rest.foldl max x
    let scale := if hi - lo = 0 then 1 else hi - lo
    Except.ok ((x :: rest).map fun y => (y - lo) / scale)

/-- `stats.boxcox(X.flatten() + 1e-6)`, line 213: scipy rejects constant
data (`Data must not be constant.`) and non-positive data
(`Data must be positive.`), otherwise applies the fitted transform
pointwise. -/
def boxcoxN (ops : NumOps) (xs : List ℚ) : Except String (List ℚ) :=
  let ys := xs.map fun x => x + eps
  if ys.isEmpty then Except.error "index 0 is out of bounds"
  else if isConstant ys then Except.error "Data must not be constant."
  else if ys.any (fun y => y ≤ 0) then Except.error "Data must be positive."
  else Except.ok (ys.map ops.boxcoxT)

/-- `np.log(X + 1e-6)`, line 215: numpy never raises here. -/
def logN (ops : NumOps) (xs : List ℚ) : Except String (List ℚ) :=
  Except.ok (xs.map fun x => ops.log (x + eps))

/-- `EnhancedDataPipeline._evaluate_normalization`, lines 209-221: the
string-keyed dispatch over the four transforms (the `else` branch of the
source is Min-Max). -/
def evaluate_normalization (ops : NumOps) (m : Method) (xs : List ℚ) :
    Except String (List ℚ) :=
  match m with
  | Method.boxcox => boxcoxN ops xs
  | Method.log => logN ops xs
  | Method.zscore => zscoreN ops xs
  | Method.minmax => minmaxN xs

/-- The three scores recorded for a (instrument, method) evaluation. -/
structure Metrics where
  mae : ℚ
  mse : ℚ
  r2 : ℚ
deriving DecidableEq

/-- `mean_absolute_error(y_true, y_pred)`. -/
def maeQ (y p : List ℚ) : ℚ :=
  ((y.zip p).map fun a => |a.1 - a.2|).sum / y.length

/-- `mean_squared_error(y_true, y_pred)`. -/
def mseQ (y p : List ℚ) : ℚ :=
  ((y.zip p).map fun a => (a.1 - a.2) ^ 2).sum / y.length

/-- `r2_score(y_true, y_pred)`: `1 - SSres/SStot`, with sklearn's
degenerate handling when `SStot = 0` (`1` for a perfect fit, else `0`). -/
def r2Q (y p : List ℚ) : ℚ :=
  let num := ((y.zip p).map fun a => (a.1 - a.2) ^ 2).sum
  let den := (y.map fun v => (v - meanQ y) ^ 2).sum
  if den = 0 then (if num = 0 then 1 else 0) else 1 - num / den

/-- One-step-ahead supervised pairs of a contiguous slice: input at `t`
paired with target at `t + 1`. -/
def pairsOf (slice : List ℚ) : List (ℚ × ℚ) :=
  slice.dropLast.zip slice.tail

/-- Scores of a fitted predictor over one contiguous slice: predictions
on `slice[:-1]`, targets `slice[1:]`. -/
def sliceMetrics (f : ℚ → ℚ) (slice : List ℚ) : Metrics :=
  { mae := maeQ slice.tail (slice.dropLast.map f)
    mse := mseQ slice.tail (slice.dropLast.map f)
    r2 := r2Q slice.tail (slice.dropLast.map f) }

/-- `normalize_data`, lines 233-242: split off the last 30 points as the
held-out tail (`norm[:-30]`, `norm[-30:]`), fit the regressor on the
training pairs (`X_train[:-1]`, `X_train[1:]`), predict on the test
inputs (`X_test[:-1]`) and score against the test targets (`X_test[1:]`).
The regressor is the external `fit` capability (the source's
`RandomForestRegressor`); sklearn raises when fitting or scoring zero
samples. -/
def evalNorm (fit : List ℚ → List ℚ → ℚ → ℚ) (norm : List ℚ) :
    Except String Metrics :=
  let xtrain := norm.take (norm.length - 30)
  let xtest := norm.drop (norm.length - 30)
  if xtrain.dropLast.isEmpty then Except.error "Found array with 0 sample(s)"
  else
    let f := fit xtrain.dropLast xtrain.tail
    let pred := xtest.dropLast.map f
    if xtest.tail.isEmpty then Except.error "Found array with 0 sample(s)"
    else Except.ok { mae := maeQ xtest.tail pred
                     mse := mseQ xtest.tail pred
                     r2 := r2Q xtest.tail pred }

/-- One leaderboard row, line 237-243. -/
structure MethodMetrics where
  instrument : String
  method : Method
  mae : ℚ
  mse : ℚ
  r2 : ℚ
deriving DecidableEq

/-- One iteration of the method loop of `normalize_data`: normalize and
evaluate, producing a leaderboard row or an error. -/
def methodRow (ops : NumOps) (fit : List ℚ → List ℚ → ℚ → ℚ)
    (instrument : String) (xs : List ℚ) (m : Method) :
    Except String MethodMetrics :=
  (evaluate_normalization ops m xs).bind fun norm =>
    (evalNorm fit norm).map fun mt =>
      { instrument := instrument, method := m,
        mae := mt.mae, mse := mt.mse, r2 := mt.r2 }

/-- The candidate list of line 228, in source order. -/
def allMethods : List Method :=
  [Method.zscore, Method.minmax, Method.boxcox, Method.log]

/-- The inner `for method in [...]` loop with its `try`/`except`: a
failing method appends nothing and the loop continues. -/
def runMethods (ops : NumOps) (fit : List ℚ → List ℚ → ℚ → ℚ)
    (instrument : String) (xs : List ℚ) : List Method → List MethodMetrics
  | [] => []
  | m :: ms =>
    match methodRow ops fit instrument xs m with
    | Except.ok r => r :: runMethods ops fit instrument xs ms
    | Except.error _ => runMethods ops fit instrument xs ms

/-- The outer `for instrument in self.instruments` loop of
`normalize_data`, accumulating `results`. -/
def buildLeaderboard (ops : NumOps) (fit : List ℚ → List ℚ → ℚ → ℚ)
    (data : String → List ℚ) : List String → List MethodMetrics
  | [] => []
  | i :: is =>
    runMethods ops fit i (data i) allMethods ++ buildLeaderboard ops fit data is

/-- `df.groupby(...)['R2'].idxmax()` restricted to one group: the first
row attaining the maximal `R2` (pandas `idxmax` keeps the first
occurrence of the maximum). -/
def pickBest : List MethodMetrics → Option MethodMetrics
  | [] => none
  | r :: rs =>
    match pickBest rs with
    | none => some r
    | some b => if b.r2 ≤ r.r2 then some r else some b

/-- Line 255, `df.loc[df.groupby('Инструмент')['R2'].idxmax()]`: one
argmax row per instrument present in the leaderboard.  (pandas orders
the groups by key; the group ordering is immaterial to the verified
properties, so the instruments are enumerated via `dedup` here.) -/
def selectBest (rows : List MethodMetrics) : List MethodMetrics :=
  ((rows.map fun r => r.instrument).dedup).filterMap fun i =>
    pickBest (rows.filter fun r => r.instrument = i)

/-- Lines 254-255 as a whole: on an empty `results` list the frame
`pd.DataFrame([])` has no columns, so `groupby('Инструмент')` raises a
`KeyError`; otherwise the per-instrument argmax table is returned. -/
def bestMethods (rows : List MethodMetrics) :
    Except String (List MethodMetrics) :=
  if rows.isEmpty then Except.error "KeyError"
  else Except.ok (selectBest rows)

/-- A concrete `NumOps` used to instantiate witnesses; the verified
properties never depend on the field values. -/
def idOps : NumOps := { sqrt := id, log := id, boxcoxT := id }

/-- A concrete normalized series of length 32 for witnesses. -/
def norm32 : List ℚ := List.replicate 32 1

/-- A concrete leaderboard with an R2 tie on instrument A, for witnesses. -/
def rowsW : List MethodMetrics :=
  [{ instrument := "A", method := Method.zscore, mae := 1, mse := 1, r2 := 1 },
   { instrument := "A", method := Method.minmax, mae := 2, mse := 2, r2 := 1 },
   { instrument := "B", method := Method.log, mae := 3, mse := 3, r2 := 0 }]

/-! ## Supporting lemmas -/

theorem truncQ_eq_floor {q : ℚ} (h : 0 ≤ q) : truncQ q = ⌊q⌋ := by
  rw [truncQ, Int.tdiv_eq_ediv (Rat.num_nonneg.2 h) (Int.natCast_nonneg _), Rat.floor_def]

theorem truncQ_intCast (n : ℤ) : truncQ (n : ℚ) = n := by
  simp [truncQ, Rat.num_intCast, Rat.den_intCast]

/-! ## Claims -/

/-- Claim C4: for positive price, non-negative equity and non-negative risk
percent, the position size entered equals
`floor(equity * riskPercent / 100 / price)`; in particular
`size(10000, 2.0, 100) = 2`. -/
theorem posSize_floor_spec :
    (∀ value riskPercent price : ℚ, 0 < price → 0 ≤ value → 0 ≤ riskPercent →
        posSize value riskPercent price = ⌊value * riskPercent / 100 / price⌋) ∧
    posSize 10000 2 100 = 2 := by
  constructor
  · intro v r p hp hv hr
    have h0 : 0 ≤ v * (r / 100) / p :=
      div_nonneg (mul_nonneg hv (div_nonneg hr (by norm_num))) hp.le
    rw [posSize, truncQ_eq_floor h0]
    congr 1
    ring
  · have h : (10000 : ℚ) * (2 / 100) / 100 = ((2 : ℤ) : ℚ) := by norm_num
    rw [posSize, h, truncQ_intCast]

/-- Witness for C4 at `equity = 10000`, `riskPercent = 2`, `price = 100`. -/
theorem posSize_floor_spec_witness :
    (0 : ℚ) < 100 ∧ (0 : ℚ) ≤ 10000 ∧ (0 : ℚ) ≤ 2 ∧
      posSize 10000 2 100 = ⌊(10000 : ℚ) * 2 / 100 / 100⌋ :=
  ⟨by norm_num, by norm_num, by norm_num,
    posSize_floor_spec.1 10000 2 100 (by norm_num) (by norm_num) (by norm_num)⟩

/-- Claim C5: for positive price and non-negative equity, the computed size is
`0` whenever the risk percent is `0` or the price exceeds
`equity * riskPercent / 100`. -/
theorem posSize_zero_spec (value riskPercent price : ℚ)
    (hp : 0 < price) (hv : 0 ≤ value) (hr : 0 ≤ riskPercent)
    (h : riskPercent = 0 ∨ value * riskPercent / 100 < price) :
    posSize value riskPercent price = 0 := by
  have hnum : 0 ≤ value * (riskPercent / 100) :=
    mul_nonneg hv (div_nonneg hr (by norm_num))
  have h0 : 0 ≤ value * (riskPercent / 100) / price := div_nonneg hnum hp.le
  have h1 : value * (riskPercent / 100) / price < 1 := by
    rcases h with h | h
    · rw [h]
      norm_num
    · rw [div_lt_one hp]
      calc value * (riskPercent / 100) = value * riskPercent / 100 := by ring
        _ < price := h
  rw [posSize, truncQ_eq_floor h0]
  exact Int.floor_eq_zero_iff.2 (Set.mem_Ico.2 ⟨h0, h1⟩)

/-- Witness for C5 at `equity = 10000`, `riskPercent = 2`, `price = 300`
(the price exceeds the 200 risk budget). -/
theorem posSize_zero_spec_witness :
    (0 : ℚ) < 300 ∧ (0 : ℚ) ≤ 10000 ∧ (0 : ℚ) ≤ 2 ∧
      (10000 : ℚ) * 2 / 100 < 300 ∧ posSize 10000 2 300 = 0 :=
  ⟨by norm_num, by norm_num, by norm_num, by norm_num,
    posSize_zero_spec 10000 2 300 (by norm_num) (by norm_num) (by norm_num)
      (Or.inr (by norm_num))⟩

theorem eps_pos : 0 < eps := by norm_num [eps]

theorem isConstant_map_add (xs : List ℚ) (t : ℚ) :
    isConstant (xs.map fun x => x + t) = isConstant xs := by
  cases xs with
  | nil => rfl
  | cons x rest =>
    simp only [isConstant, List.map_cons, List.all_map]
    congr 1
    funext z
    exact decide_eq_decide.2 (add_left_inj t)

/-- Claim C8 (counterexample): on the constant series `[5, 5, 5]`,
Z-Score normalization returns a series (of zeros) rather than failing. -/
theorem zscore_constant_counterexample :
    evaluate_normalization idOps Method.zscore [5, 5, 5] = Except.ok [0, 0, 0] := by
  norm_num [evaluate_normalization, zscoreN, meanQ, varQ, idOps]

/-- Claim C8 (amended): on a non-empty zero-variance series, Z-Score
normalization succeeds and returns the all-zero series of the same
length (sklearn's scale falls back to `1`); it does not raise. -/
theorem zscore_constant_returns_zeros (ops : NumOps) (xs : List ℚ) (a : ℚ)
    (hne : xs ≠ []) (hconst : ∀ x ∈ xs, x = a) :
    evaluate_normalization ops Method.zscore xs =
      Except.ok (List.replicate xs.length 0) := by
  have hlen : (xs.length : ℚ) ≠ 0 :=
    Nat.cast_ne_zero.2 (by simpa [List.length_eq_zero] using hne)
  have hmean : meanQ xs = a := by
    rw [meanQ, List.sum_eq_card_nsmul xs a hconst, nsmul_eq_mul,
      mul_div_cancel_left₀ _ hlen]
  have hvar : varQ xs = 0 := by
    rw [varQ, List.sum_eq_zero, zero_div]
    intro y hy
    obtain ⟨x, hx, rfl⟩ := List.mem_map.1 hy
    rw [hmean, hconst x hx]
    ring
  show zscoreN ops xs = _
  rw [zscoreN, if_neg (by simp [hne])]
  simp only [hvar, hmean, if_pos rfl]
  congr 1
  refine List.eq_replicate_iff.2 ⟨by simp, ?_⟩
  intro b hb
  obtain ⟨x, hx, rfl⟩ := List.mem_map.1 hb
  rw [hconst x hx]
  ring

/-- Witness for the amended C8 at the constant series `[7, 7]`. -/
theorem zscore_constant_returns_zeros_witness :
    (([7, 7] : List ℚ) ≠ [] ∧ ∀ x ∈ ([7, 7] : List ℚ), x = 7) ∧
      evaluate_normalization idOps Method.zscore [7, 7] =
        Except.ok (List.replicate 2 0) :=
  ⟨⟨by simp, by simp⟩,
    zscore_constant_returns_zeros idOps [7, 7] 7 (by simp) (by simp)⟩

/-- Claim C9 (counterexample): Box-Cox on the strictly positive constant
series `[5, 5, 5]` raises scipy's constant-data error instead of
returning a same-length series. -/
theorem boxcox_constant_counterexample :
    evaluate_normalization idOps Method.boxcox [5, 5, 5] =
      Except.error "Data must not be constant." := by
  norm_num [evaluate_normalization, boxcoxN, isConstant, eps]

/-- Claim C9 (amended): on a non-empty strictly positive series — for
Box-Cox additionally a non-constant one, since scipy rejects constant
data — each of the four methods returns a series of exactly the input's
length, each output position a function of the input value at the same
position (no reordering, no dropped points). -/
theorem normalize_length_order (ops : NumOps) (m : Method) (xs : List ℚ)
    (hne : xs ≠ []) (hpos : ∀ x ∈ xs, 0 < x)
    (hnc : m = Method.boxcox → isConstant xs = false) :
    (∃ g : ℚ → ℚ, evaluate_normalization ops m xs = Except.ok (xs.map g)) ∧
    (∀ ys, evaluate_normalization ops m xs = Except.ok ys →
        ys.length = xs.length) := by
  have hmain : ∃ g : ℚ → ℚ,
      evaluate_normalization ops m xs = Except.ok (xs.map g) := by
    cases m with
    | zscore =>
      refine ⟨fun x => (x - meanQ xs) /
        (if varQ xs = 0 then 1 else ops.sqrt (varQ xs)), ?_⟩
      show zscoreN ops xs = _
      rw [zscoreN, if_neg (by simp [hne])]
    | minmax =>
      cases xs with
      | nil => exact absurd rfl hne
      | cons x rest =>
        refine ⟨fun y => (y - rest.foldl min x) /
          (if rest.foldl max x - rest.foldl min x = 0 then 1
           else rest.foldl max x - rest.foldl min x), ?_⟩
        rfl
    | boxcox =>
      refine ⟨fun x => ops.boxcoxT (x + eps), ?_⟩
      show boxcoxN ops xs = _
      have h1 : (xs.map fun x => x + eps).isEmpty = false := by
        simp [List.isEmpty_iff, hne]
      have h2 : isConstant (xs.map fun x => x + eps) = false := by
        rw [isConstant_map_add]
        exact hnc rfl
      have h3 : (xs.map fun x => x + eps).any (fun y => y ≤ 0) = false := by
        simp only [List.any_eq_false, List.mem_map]
        rintro y ⟨x, hx, rfl⟩
        simp only [decide_eq_true_eq, not_le]
        have := hpos x hx
        have := eps_pos
        linarith
      simp only [boxcoxN, h1, h2, h3, Bool.false_eq_true, if_false,
        List.map_map]
      rfl
    | log =>
      exact ⟨fun x => ops.log (x + eps), rfl⟩
  refine ⟨hmain, ?_⟩
  obtain ⟨g, hg⟩ := hmain
  intro ys hy
  rw [hg] at hy
  injection hy with h
  rw [← h, List.length_map]

/-- Witness for the amended C9: Box-Cox on the non-constant positive
series `[1, 2]`. -/
theorem normalize_length_order_witness :
    (([1, 2] : List ℚ) ≠ [] ∧ (∀ x ∈ ([1, 2] : List ℚ), 0 < x) ∧
        (Method.boxcox = Method.boxcox → isConstant [1, 2] = false)) ∧
      ((∃ g : ℚ → ℚ, evaluate_normalization idOps Method.boxcox [1, 2] =
          Except.ok (([1, 2] : List ℚ).map g)) ∧
       (∀ ys, evaluate_normalization idOps Method.boxcox [1, 2] =
          Except.ok ys → ys.length = ([1, 2] : List ℚ).length)) :=
  ⟨⟨by simp, by norm_num, fun _ => by norm_num [isConstant]⟩,
    normalize_length_order idOps Method.boxcox [1, 2] (by simp)
      (by norm_num) (fun _ => by norm_num [isConstant])⟩

theorem pickBest_eq_none {rs : List MethodMetrics} :
    pickBest rs = none ↔ rs = [] := by
  cases rs with
  | nil => simp [pickBest]
  | cons r rs =>
    rw [pickBest]
    cases h : pickBest rs with
    | none => simp
    | some b => by_cases hb : b.r2 ≤ r.r2 <;> simp [hb]

theorem pickBest_spec : ∀ {rs : List MethodMetrics} {b : MethodMetrics},
    pickBest rs = some b →
    ∃ l1 l2, rs = l1 ++ b :: l2 ∧ (∀ r ∈ rs, r.r2 ≤ b.r2) ∧
      (∀ r ∈ l1, r.r2 < b.r2)
  | [], b, h => by simp [pickBest] at h
  | r :: rs, b, h => by
    rw [pickBest] at h
    split at h
    · rename_i hp
      injection h with h
      subst h
      have hrs : rs = [] := pickBest_eq_none.1 hp
      subst hrs
      exact ⟨[], [], rfl, by simp, by simp⟩
    · rename_i b' hp
      split at h
      · rename_i hle
        injection h with h
        subst h
        obtain ⟨l1, l2, he, hmax, _⟩ := pickBest_spec hp
        refine ⟨[], rs, rfl, ?_, by simp⟩
        intro x hx
        rcases List.mem_cons.1 hx with rfl | hx
        · exact le_refl _
        · exact le_trans (hmax x hx) hle
      · rename_i hle
        injection h with h
        subst h
        push_neg at hle
        obtain ⟨l1, l2, he, hmax, hpre⟩ := pickBest_spec hp
        refine ⟨r :: l1, l2, by rw [he, List.cons_append], ?_, ?_⟩
        · intro x hx
          rcases List.mem_cons.1 hx with rfl | hx
          · exact hle.le
          · exact hmax x hx
        · intro x hx
          rcases List.mem_cons.1 hx with rfl | hx
          · exact hle
          · exact hpre x hx

theorem pickBest_mem {rs : List MethodMetrics} {b : MethodMetrics}
    (h : pickBest rs = some b) : b ∈ rs := by
  obtain ⟨l1, l2, he, _, _⟩ := pickBest_spec h
  rw [he]
  exact List.mem_append_right _ (List.mem_cons_self _ _)

theorem filter_filterMap_not_mem {g : String → Option MethodMetrics}
    {l : List String} {i : String}
    (hg : ∀ j c, g j = some c → c.instrument = j) (hi : i ∉ l) :
    (l.filterMap g).filter (fun r => r.instrument = i) = [] := by
  induction l with
  | nil => rfl
  | cons j l ih =>
    have hji : j ≠ i := fun h => hi (h ▸ List.mem_cons_self _ _)
    have hrest := ih fun h => hi (List.mem_cons_of_mem _ h)
    rw [List.filterMap_cons]
    cases hj : g j with
    | none => exact hrest
    | some c =>
      rw [List.filter_cons]
      simp [hg j c hj, hji, hrest]

theorem filter_filterMap_mem {g : String → Option MethodMetrics}
    {l : List String} {i : String}
    (hg : ∀ j c, g j = some c → c.instrument = j) (hnd : l.Nodup)
    (hi : i ∈ l) :
    (l.filterMap g).filter (fun r => r.instrument = i) = (g i).toList := by
  induction l with
  | nil => simp at hi
  | cons j l ih =>
    rcases List.mem_cons.1 hi with rfl | hi'
    · have hnotin : i ∉ l := (List.nodup_cons.1 hnd).1
      rw [List.filterMap_cons]
      cases hj : g i with
      | none => simpa [hj] using filter_filterMap_not_mem hg hnotin
      | some c =>
        rw [List.filter_cons]
        simp [hg i c hj, filter_filterMap_not_mem hg hnotin, hj]
    · have hji : j ≠ i := by
        rintro rfl
        exact (List.nodup_cons.1 hnd).1 hi'
      have hrest := ih (List.nodup_cons.1 hnd).2 hi'
      rw [List.filterMap_cons]
      cases hj : g j with
      | none => exact hrest
      | some c => simp [List.filter_cons, hg j c hj, hji, hrest]

/-- Claim C3: for every instrument present in a leaderboard, `selectBest`
returns exactly one row for it; that row's R2 dominates every candidate
of the same instrument, and among the group it is the first row
attaining the maximum (pandas `idxmax` first-seen tie-break). -/
theorem selectBest_spec (rows : List MethodMetrics) (i : String)
    (hne : ∃ r ∈ rows, r.instrument = i) :
    ∃ b l1 l2,
      (selectBest rows).filter (fun r => r.instrument = i) = [b] ∧
      rows.filter (fun r => r.instrument = i) = l1 ++ b :: l2 ∧
      (∀ r ∈ rows, r.instrument = i → r.r2 ≤ b.r2) ∧
      (∀ r ∈ l1, r.r2 < b.r2) := by
  obtain ⟨r0, hr0, hr0i⟩ := hne
  have hr0f : r0 ∈ rows.filter (fun r => r.instrument = i) :=
    List.mem_filter.2 ⟨hr0, by simp [hr0i]⟩
  have hgrp : rows.filter (fun r => r.instrument = i) ≠ [] := by
    intro h
    rw [h] at hr0f
    simp at hr0f
  obtain ⟨b, hb⟩ : ∃ b,
      pickBest (rows.filter fun r => r.instrument = i) = some b := by
    cases hp : pickBest (rows.filter fun r => r.instrument = i) with
    | none => exact absurd (pickBest_eq_none.1 hp) hgrp
    | some b => exact ⟨b, rfl⟩
  obtain ⟨l1, l2, he, hmax, hfirst⟩ := pickBest_spec hb
  have hg : ∀ j c,
      pickBest (rows.filter fun r => r.instrument = j) = some c →
      c.instrument = j := by
    intro j c hc
    exact of_decide_eq_true (List.mem_filter.1 (pickBest_mem hc)).2
  refine ⟨b, l1, l2, ?_, he, ?_, hfirst⟩
  · have hnd := List.nodup_dedup (rows.map fun r => r.instrument)
    have hi : i ∈ (rows.map fun r => r.instrument).dedup :=
      List.mem_dedup.2 (List.mem_map.2 ⟨r0, hr0, hr0i⟩)
    rw [selectBest, filter_filterMap_mem hg hnd hi, hb]
    rfl
  · intro r hr hri
    exact hmax r (List.mem_filter.2 ⟨hr, by simp [hri]⟩)

/-- Witness for C3 on a leaderboard with an R2 tie for instrument A. -/
theorem selectBest_spec_witness :
    (∃ r ∈ rowsW, r.instrument = "A") ∧
      ∃ b l1 l2,
        (selectBest rowsW).filter (fun r => r.instrument = "A") = [b] ∧
        rowsW.filter (fun r => r.instrument = "A") = l1 ++ b :: l2 ∧
        (∀ r ∈ rowsW, r.instrument = "A" → r.r2 ≤ b.r2) ∧
        (∀ r ∈ l1, r.r2 < b.r2) :=
  ⟨⟨{ instrument := "A", method := Method.zscore, mae := 1, mse := 1, r2 := 1 },
      by simp [rowsW], rfl⟩,
    selectBest_spec rowsW "A"
      ⟨{ instrument := "A", method := Method.zscore, mae := 1, mse := 1, r2 := 1 },
        by simp [rowsW], rfl⟩⟩

/-- Claim C7 (counterexample): on the fully empty leaderboard, the
selection step raises (pandas `KeyError` on the absent group column)
instead of returning an empty selection. -/
theorem bestMethods_empty_raises : bestMethods [] = Except.error "KeyError" := rfl

/-- Claim C7 (amended): for a NON-empty leaderboard containing no row
for an instrument, selection succeeds and yields no row for that
instrument; the fully empty leaderboard instead raises a `KeyError`. -/
theorem bestMethods_missing_instrument (rows : List MethodMetrics) (i : String)
    (hne : rows ≠ []) (hmiss : ∀ r ∈ rows, r.instrument ≠ i) :
    bestMethods rows = Except.ok (selectBest rows) ∧
      ∀ r ∈ selectBest rows, r.instrument ≠ i := by
  constructor
  · rw [bestMethods, if_neg (by simp [hne])]
  · intro r hr
    obtain ⟨j, hj, hpick⟩ := List.mem_filterMap.1 hr
    have hmem := List.mem_filter.1 (pickBest_mem hpick)
    have hrj : r.instrument = j := of_decide_eq_true hmem.2
    rw [hrj]
    rintro rfl
    obtain ⟨r', hr', hr'j⟩ := List.mem_map.1 (List.mem_dedup.1 hj)
    exact hmiss r' hr' hr'j

/-- Witness for the amended C7: the non-empty leaderboard `rowsW`
queried for the absent instrument C. -/
theorem bestMethods_missing_instrument_witness :
    (rowsW ≠ [] ∧ ∀ r ∈ rowsW, r.instrument ≠ "C") ∧
      (bestMethods rowsW = Except.ok (selectBest rowsW) ∧
        ∀ r ∈ selectBest rowsW, r.instrument ≠ "C") :=
  ⟨⟨by simp [rowsW], by decide⟩,
    bestMethods_missing_instrument rowsW "C" (by simp [rowsW]) (by decide)⟩

theorem except_toOption_eq_some {α β : Type} {e : Except α β} {b : β} :
    e.toOption = some b ↔ e = Except.ok b := by
  cases e <;> simp [Except.toOption]

theorem runMethods_eq_filterMap (ops : NumOps)
    (fit : List ℚ → List ℚ → ℚ → ℚ) (i : String) (xs : List ℚ) :
    ∀ ms : List Method, runMethods ops fit i xs ms =
      ms.filterMap fun m => (methodRow ops fit i xs m).toOption := by
  intro ms
  induction ms with
  | nil => rfl
  | cons m ms ih =>
    rw [List.filterMap_cons]
    cases h : methodRow ops fit i xs m with
    | ok r => simp [runMethods, h, Except.toOption, ih]
    | error e => simp [runMethods, h, Except.toOption, ih]

theorem mem_buildLeaderboard {ops : NumOps}
    {fit : List ℚ → List ℚ → ℚ → ℚ} {data : String → List ℚ}
    {instruments : List String} {r : MethodMetrics} :
    r ∈ buildLeaderboard ops fit data instruments ↔
      ∃ i ∈ instruments, ∃ m ∈ allMethods,
        methodRow ops fit i (data i) m = Except.ok r := by
  induction instruments with
  | nil => simp [buildLeaderboard]
  | cons i is ih =>
    rw [buildLeaderboard, List.mem_append, ih, runMethods_eq_filterMap,
      List.mem_filterMap]
    simp only [except_toOption_eq_some]
    constructor
    · rintro (⟨m, hm, hr⟩ | ⟨j, hj, m, hm, hr⟩)
      · exact ⟨i, List.mem_cons_self _ _, m, hm, hr⟩
      · exact ⟨j, List.mem_cons_of_mem _ hj, m, hm, hr⟩
    · rintro ⟨j, hj, m, hm, hr⟩
      rcases List.mem_cons.1 hj with rfl | hj
      · exact Or.inl ⟨m, hm, hr⟩
      · exact Or.inr ⟨j, hj, m, hm, hr⟩

theorem methodRow_ok_fields {ops : NumOps} {fit : List ℚ → List ℚ → ℚ → ℚ}
    {i : String} {xs : List ℚ} {m : Method} {r : MethodMetrics}
    (h : methodRow ops fit i xs m = Except.ok r) :
    r.instrument = i ∧ r.method = m := by
  rw [methodRow] at h
  cases hn : evaluate_normalization ops m xs with
  | error e => rw [hn] at h; simp [Except.bind] at h
  | ok norm =>
    rw [hn] at h
    simp only [Except.bind] at h
    cases he : evalNorm fit norm with
    | error e => rw [he] at h; simp [Except.map] at h
    | ok mt =>
      rw [he] at h
      simp only [Except.map] at h
      injection h with h
      rw [← h]
      exact ⟨rfl, rfl⟩

/-- Claim C6: a failure raised while normalizing, fitting, predicting or
scoring one method is caught by the per-method try/except of
`normalize_data`: the leaderboard consists exactly of the rows of
succeeding (instrument, method) evaluations — so a failing pair
contributes no row, and every other evaluation's row is present
unaffected. -/
theorem leaderboard_failure_isolation (ops : NumOps)
    (fit : List ℚ → List ℚ → ℚ → ℚ) (data : String → List ℚ)
    (instruments : List String) :
    (∀ i xs, runMethods ops fit i xs allMethods =
        allMethods.filterMap fun m => (methodRow ops fit i xs m).toOption) ∧
    (∀ r, r ∈ buildLeaderboard ops fit data instruments ↔
        ∃ i ∈ instruments, ∃ m ∈ allMethods,
          methodRow ops fit i (data i) m = Except.ok r) ∧
    (∀ i ∈ instruments, ∀ (m : Method) (e : String),
        methodRow ops fit i (data i) m = Except.error e →
        ∀ r ∈ buildLeaderboard ops fit data instruments,
          ¬(r.instrument = i ∧ r.method = m)) := by
  refine ⟨fun i xs => runMethods_eq_filterMap ops fit i xs allMethods,
    fun r => mem_buildLeaderboard, ?_⟩
  rintro i hi m e herr r hr ⟨hri, hrm⟩
  obtain ⟨j, hj, m', hm', hok⟩ := mem_buildLeaderboard.1 hr
  obtain ⟨hfi, hfm⟩ := methodRow_ok_fields hok
  have hji : j = i := hfi.symm.trans hri
  have hmm : m' = m := hfm.symm.trans hrm
  rw [hji, hmm, herr] at hok
  exact Except.noConfusion hok

/-- Witness for C6: with an empty data series for instrument A, the
Z-Score evaluation fails (zero samples) and contributes no row. -/
theorem leaderboard_failure_isolation_witness :
    ("A" ∈ ["A"] ∧
      methodRow idOps (fun _ _ x => x) "A" [] Method.zscore =
        Except.error "Found array with 0 sample(s)") ∧
      ∀ r ∈ buildLeaderboard idOps (fun _ _ x => x) (fun _ => []) ["A"],
        ¬(r.instrument = "A" ∧ r.method = Method.zscore) :=
  ⟨⟨List.mem_cons_self _ _, rfl⟩,
    (leaderboard_failure_isolation idOps (fun _ _ x => x) (fun _ => [])
        ["A"]).2.2 "A" (List.mem_cons_self _ _) Method.zscore
      "Found array with 0 sample(s)" rfl⟩

theorem next_closes (model : List ℚ → ℚ) (lookback : Nat) (riskPercent : ℚ)
    (s : ExecState) (c : ℚ) :
    ((next model lookback riskPercent s c).1).closes = s.closes ++ [c] := by
  simp only [next]
  split
  · rfl
  split
  · rfl
  split
  · rfl
  split <;> rfl

theorem next_preds_eq (model : List ℚ → ℚ) (lookback : Nat) (riskPercent : ℚ)
    (s : ExecState) (c : ℚ) :
    ((next model lookback riskPercent s c).1).preds =
      if lookback ≤ s.closes.length + 1
      then s.preds ++ [model (window lookback (s.closes ++ [c]))]
      else s.preds := by
  have hlen : (s.closes ++ [c]).length = s.closes.length + 1 := by simp
  by_cases h1 : (s.closes ++ [c]).length < lookback
  · have h2 : ¬ lookback ≤ s.closes.length + 1 := by omega
    simp only [next]
    rw [if_pos h1, if_neg h2]
  · have h2 : lookback ≤ s.closes.length + 1 := by omega
    simp only [next]
    rw [if_neg h1, if_pos h2]
    split
    · rfl
    split
    · rfl
    split <;> rfl

theorem runBars_append (model : List ℚ → ℚ) (lookback : Nat)
    (riskPercent : ℚ) (cash : ℚ) (bs : List ℚ) (c : ℚ) :
    runBars model lookback riskPercent cash (bs ++ [c]) =
      (next model lookback riskPercent
        (runBars model lookback riskPercent cash bs) c).1 := by
  rw [runBars, runBars, List.foldl_append, List.foldl_cons, List.foldl_nil]

theorem runBars_closes_length (model : List ℚ → ℚ) (lookback : Nat)
    (riskPercent : ℚ) (cash : ℚ) (bars : List ℚ) :
    (runBars model lookback riskPercent cash bars).closes.length =
      bars.length := by
  induction bars using List.reverseRecOn with
  | nil => rfl
  | append_singleton bs c ih =>
    rw [runBars_append, next_closes, List.length_append, List.length_append, ih]

/-- Claim C10: on every bar where the rolling window is full (at least
`lookback` bars seen counting the current one) exactly one prediction is
appended to the forecast history, before any signal branch runs and also
on no-signal bars; no prediction is appended on warm-up bars.  Hence a
run over `n` bars leaves a history of exactly `n - (lookback - 1)`
predictions, one per full-window bar. -/
theorem forecast_history_spec (model : List ℚ → ℚ) (lookback : Nat)
    (riskPercent : ℚ) :
    (∀ (s : ExecState) (c : ℚ),
        ((next model lookback riskPercent s c).1).preds =
          if lookback ≤ s.closes.length + 1
          then s.preds ++ [model (window lookback (s.closes ++ [c]))]
          else s.preds) ∧
    (∀ (cash : ℚ) (bars : List ℚ),
        (runBars model lookback riskPercent cash bars).preds.length =
          bars.length - (lookback - 1)) := by
  refine ⟨next_preds_eq model lookback riskPercent, ?_⟩
  intro cash bars
  induction bars using List.reverseRecOn with
  | nil =>
    simp [runBars, initState]
  | append_singleton bs c ih =>
    rw [runBars_append, next_preds_eq]
    have hcl := runBars_closes_length model lookback riskPercent cash bs
    by_cases h : lookback ≤
        (runBars model lookback riskPercent cash bs).closes.length + 1
    · rw [if_pos h, List.length_append, List.length_append, ih]
      rw [hcl] at h
      simp only [List.length_singleton]
      omega
    · rw [if_neg h, List.length_append, ih]
      rw [hcl] at h
      simp only [List.length_singleton]
      omega

/-- Claim C1: on a bar processed in the Forecasting state (window full
counting the current bar) with at least two recorded predictions, the
strategy issues a buy (entering a long) iff the current prediction
strictly exceeds the previous one and no position is open; it issues a
close of the entire position iff the current prediction is strictly
below the previous one and a position is open; equal predictions issue
no order.  The two iffs entail that no second position is opened while
one is open and no close is issued while flat. -/
theorem strategy_signal_iff (model : List ℚ → ℚ) (lookback : Nat)
    (riskPercent : ℚ) (s : ExecState) (c : ℚ)
    (hFull : lookback ≤ s.closes.length + 1) (hTwo : 1 ≤ s.preds.length) :
    ((∃ sz, (next model lookback riskPercent s c).2 = TradeAction.buy sz) ↔
       (s.preds.getD (s.preds.length - 1) 0 <
          model (window lookback (s.closes ++ [c])) ∧ s.position = 0)) ∧
    ((next model lookback riskPercent s c).2 = TradeAction.close ↔
       (model (window lookback (s.closes ++ [c])) <
          s.preds.getD (s.preds.length - 1) 0 ∧ s.position ≠ 0)) ∧
    (model (window lookback (s.closes ++ [c])) =
        s.preds.getD (s.preds.length - 1) 0 →
      (next model lookback riskPercent s c).2 = TradeAction.hold) := by
  have h1 : ¬ (s.closes ++ [c]).length < lookback := by
    rw [List.length_append, List.length_singleton]
    omega
  have h2 : ¬ (s.preds ++ [model (window lookback (s.closes ++ [c]))]).length
      < 2 := by
    rw [List.length_append, List.length_singleton]
    omega
  have h3 : (s.preds ++ [model (window lookback (s.closes ++ [c]))]).getD
      ((s.preds ++ [model (window lookback (s.closes ++ [c]))]).length - 2)
      0 = s.preds.getD (s.preds.length - 1) 0 := by
    rw [List.length_append, List.length_singleton,
      List.getD_eq_getElem?_getD,
      List.getElem?_append_left (by omega : s.preds.length + 1 - 2 <
        s.preds.length),
      ← List.getD_eq_getElem?_getD,
      show s.preds.length + 1 - 2 = s.preds.length - 1 from by omega]
  simp only [next]
  rw [if_neg h1, if_neg h2, h3]
  by_cases hb : s.preds.getD (s.preds.length - 1) 0 <
      model (window lookback (s.closes ++ [c])) ∧ s.position = 0
  · rw [if_pos hb]
    refine ⟨iff_of_true ⟨_, rfl⟩ hb, ?_, ?_⟩
    · refine iff_of_false (by simp) ?_
      intro h
      exact h.2 hb.2
    · intro he
      rw [he] at hb
      exact absurd hb.1 (lt_irrefl _)
  · rw [if_neg hb]
    by_cases hc : model (window lookback (s.closes ++ [c])) <
        s.preds.getD (s.preds.length - 1) 0 ∧ s.position ≠ 0
    · rw [if_pos hc]
      refine ⟨?_, iff_of_true rfl hc, ?_⟩
      · refine iff_of_false (by simp) ?_
        intro h
        exact hc.2 h.2
      · intro he
        rw [he] at hc
        exact absurd hc.1 (lt_irrefl _)
    · rw [if_neg hc]
      exact ⟨iff_of_false (by simp) hb, iff_of_false (by simp) hc,
        fun _ => rfl⟩

/-- Witness for C1: with `lookback = 1`, one prior close and one prior
prediction, a rising forecast on a flat book issues a buy. -/
theorem strategy_signal_iff_witness :
    ((1 : Nat) ≤ ([3] : List ℚ).length + 1 ∧ 1 ≤ ([4] : List ℚ).length) ∧
      ((∃ sz, (next (fun _ => 5) 1 2
          { closes := [3], preds := [4], position := 0, cash := 1000 }
          2).2 = TradeAction.buy sz) ↔
        (([4] : List ℚ).getD (([4] : List ℚ).length - 1) 0 <
          (fun (_ : List ℚ) => (5 : ℚ)) (window 1 ([3] ++ [2])) ∧
          (0 : ℤ) = 0)) ∧
      (((next (fun _ => 5) 1 2
          { closes := [3], preds := [4], position := 0, cash := 1000 }
          2).2 = TradeAction.close) ↔
        ((fun (_ : List ℚ) => (5 : ℚ)) (window 1 ([3] ++ [2])) <
          ([4] : List ℚ).getD (([4] : List ℚ).length - 1) 0 ∧
          (0 : ℤ) ≠ 0)) ∧
      ((fun (_ : List ℚ) => (5 : ℚ)) (window 1 ([3] ++ [2])) =
          ([4] : List ℚ).getD (([4] : List ℚ).length - 1) 0 →
        (next (fun _ => 5) 1 2
          { closes := [3], preds := [4], position := 0, cash := 1000 }
          2).2 = TradeAction.hold) :=
  ⟨⟨by norm_num, by norm_num⟩,
    strategy_signal_iff (fun _ => 5) 1 2
      { closes := [3], preds := [4], position := 0, cash := 1000 } 2
      (by norm_num) (by norm_num)⟩

/-- Claim C2: in `normalize_data` the held-out tail is exactly the last
30 points and the training slice everything before (their concatenation
is the input); one-step-ahead supervised pairs map the value at `t` to
the value at `t + 1` inside one contiguous slice, and the fit receives
exactly the unzipped training pairs; and the reported MAE/MSE/R2 equal
the scores of the fitted model over the held-out tail alone — no
training target enters them. -/
theorem walk_forward_split (fit : List ℚ → List ℚ → ℚ → ℚ)
    (norm : List ℚ) (h30 : 30 ≤ norm.length) :
    (norm.drop (norm.length - 30)).length = 30 ∧
    norm.take (norm.length - 30) ++ norm.drop (norm.length - 30) = norm ∧
    (∀ (slice : List ℚ) (i : Nat), i + 1 < slice.length →
        (pairsOf slice).getD i (0, 0) =
          (slice.getD i 0, slice.getD (i + 1) 0)) ∧
    ((pairsOf (norm.take (norm.length - 30))).map Prod.fst =
        (norm.take (norm.length - 30)).dropLast ∧
      (pairsOf (norm.take (norm.length - 30))).map Prod.snd =
        (norm.take (norm.length - 30)).tail) ∧
    (32 ≤ norm.length →
      evalNorm fit norm = Except.ok (sliceMetrics
        (fit (norm.take (norm.length - 30)).dropLast
          (norm.take (norm.length - 30)).tail)
        (norm.drop (norm.length - 30)))) := by
  refine ⟨?_, List.take_append_drop _ _, ?_, ⟨?_, ?_⟩, ?_⟩
  · rw [List.length_drop]
    omega
  · intro slice i hi
    have h1 : i < slice.length := by omega
    have hz : i < (pairsOf slice).length := by
      rw [pairsOf, List.length_zip, List.length_dropLast, List.length_tail]
      omega
    rw [List.getD_eq_getElem?_getD, List.getElem?_eq_getElem hz,
      Option.getD_some, List.getD_eq_getElem?_getD,
      List.getElem?_eq_getElem h1, Option.getD_some,
      List.getD_eq_getElem?_getD, List.getElem?_eq_getElem hi,
      Option.getD_some]
    simp [pairsOf, List.getElem_zip]
  · refine List.map_fst_zip _ _ ?_
    rw [List.length_dropLast, List.length_tail]
  · refine List.map_snd_zip _ _ ?_
    rw [List.length_dropLast, List.length_tail]
  · intro h32
    have hg1 : ((norm.take (norm.length - 30)).dropLast.isEmpty = true) =
        False := by
      have hlen : (norm.take (norm.length - 30)).dropLast.length =
          norm.length - 30 - 1 := by
        rw [List.length_dropLast, List.length_take]
        omega
      simp only [List.isEmpty_iff, eq_iff_iff, iff_false]
      intro hnil
      rw [hnil] at hlen
      simp at hlen
      omega
    have hg2 : ((norm.drop (norm.length - 30)).tail.isEmpty = true) =
        False := by
      have hlen : (norm.drop (norm.length - 30)).tail.length =
          norm.length - (norm.length - 30) - 1 := by
        rw [List.length_tail, List.length_drop]
      simp only [List.isEmpty_iff, eq_iff_iff, iff_false]
      intro hnil
      rw [hnil] at hlen
      simp at hlen
      omega
    simp only [evalNorm, hg1, hg2, if_false]
    rfl

/-- Witness for C2 on a concrete normalized series of length 32 with an
identity regressor capability. -/
theorem walk_forward_split_witness :
    30 ≤ norm32.length ∧
    ((norm32.drop (norm32.length - 30)).length = 30 ∧
    norm32.take (norm32.length - 30) ++ norm32.drop (norm32.length - 30) =
      norm32 ∧
    (∀ (slice : List ℚ) (i : Nat), i + 1 < slice.length →
        (pairsOf slice).getD i (0, 0) =
          (slice.getD i 0, slice.getD (i + 1) 0)) ∧
    ((pairsOf (norm32.take (norm32.length - 30))).map Prod.fst =
        (norm32.take (norm32.length - 30)).dropLast ∧
      (pairsOf (norm32.take (norm32.length - 30))).map Prod.snd =
        (norm32.take (norm32.length - 30)).tail) ∧
    (32 ≤ norm32.length →
      evalNorm (fun _ _ => id) norm32 = Except.ok (sliceMetrics
        ((fun (_ _ : List ℚ) => (id : ℚ → ℚ))
          (norm32.take (norm32.length - 30)).dropLast
          (norm32.take (norm32.length - 30)).tail)
        (norm32.drop (norm32.length - 30))))) :=
  ⟨by norm_num [norm32],
    walk_forward_split (fun _ _ => id) norm32 (by norm_num [norm32])⟩
